import Mathlib

/-!
Shallow embedding of the veritas-chain replication core (src/src/chain.mjs,
src/src/genesis.mjs, src/block.mjs, src/src/peer-handshake.mjs,
src/src/peer-sync.mjs, src/src/peer-gossip.mjs) together with proofs about the
claims of its specification.

Cryptographic primitives (SHA-512, Ed25519, AES-GCM field encryption, base64 /
JSON serialization) are modelled symbolically: a hash or signature is a string
built from its inputs through an injective character-level encoding, so that
equality of hashes coincides with equality of the hashed data, and a signature
verifies against a public key iff it was produced over exactly that data with
the matching private key.  All definitions are executable.
-/

set_option maxRecDepth 100000

namespace Veritas

/-! ## Injective character-level encoding

`fenc` encodes a list of characters so that the encoding is self-delimiting:
every payload character is tagged with a marker and a terminator closes the
field.  It plays the role of the (injective) JSON/base64 serialization used by
the JavaScript source. -/
def fenc : List Char → List Char
  | [] => ['E']
  | c :: cs => 'D' :: c :: fenc cs

/-! ## Symbolic cryptographic services (src/src/crypto.mjs) -/
/-- SHA-512, modelled as an injective symbolic digest of the input string. -/
def sha512 (s : String) : String := String.mk ('H' :: fenc s.data)

/-- Public key corresponding to an Ed25519 private key. -/
def privToPub (priv : String) : String := String.mk ('P' :: fenc priv.data)

/-- The (unique) valid signature string over `data` for public key `pub`. -/
def mkSigStr (data pub : String) : String :=
  String.mk ('Z' :: (fenc data.data ++ fenc pub.data))

/-- Ed25519 signing (`crypto.signEd25519`). -/
def signEd25519 (data priv : String) : String := mkSigStr data (privToPub priv)

/-- Ed25519 verification (`crypto.verifyEd25519`): a signature verifies iff it
is exactly the signature over `data` by the private key matching `pub`. -/
def verifyEd25519 (data sig pub : String) : Bool := sig == mkSigStr data pub

/-! ## Block data model (src/block.mjs)

`encryptedData` maps field names to per-field AES-GCM envelopes.  An envelope
is modelled symbolically as the pair of the encryption key and the plaintext:
decryption with the right key recovers the plaintext, decryption with a wrong
key fails (the auth-tag check throws in the source). -/
structure EncEnvelope where
  key : String
  plaintext : String
deriving DecidableEq, Repr

structure BlockMeta where
  createdAt : Int
  updatedAt : Int
  ownerPubKey : String
  lifecycleStage : String
  deathDate : Option Int
  rotationsLeft : Int
deriving DecidableEq, Repr

structure Block where
  hash : String
  encryptedData : List (String × EncEnvelope)
  tokens : List (String × String)
  metadata : BlockMeta
  prevHash : Option String
  signature : String
deriving DecidableEq, Repr

/-! Serialization of block content, standing for the `JSON.stringify` calls of
the source.  Each atomic component goes through the self-delimiting `fenc`
encoding so that the whole serialization supports cancellation of leading fields. -/
def serOptStr : Option String → List Char
  | none => ['N']
  | some s => 'S' :: fenc s.data

def serOptInt : Option Int → List Char
  | none => ['N']
  | some i => 'S' :: fenc (toString i).data

def serEnvelope (e : EncEnvelope) : List Char :=
  fenc e.key.data ++ fenc e.plaintext.data

def serEncData : List (String × EncEnvelope) → List Char
  | [] => ['0']
  | (f, e) :: rest => '1' :: (fenc f.data ++ (serEnvelope e ++ serEncData rest))

def serTokens : List (String × String) → List Char
  | [] => ['0']
  | (k, v) :: rest => '1' :: (fenc k.data ++ (fenc v.data ++ serTokens rest))

def serMeta (m : BlockMeta) : List Char :=
  fenc (toString m.createdAt).data ++
    (fenc (toString m.updatedAt).data ++
      (fenc m.ownerPubKey.data ++
        (fenc m.lifecycleStage.data ++
          (serOptInt m.deathDate ++ fenc (toString m.rotationsLeft).data))))

/-- Serialization hashed by `calculateBlockHash`: the source serializes
`{encryptedData, tokens, metadata (all six fields), prevHash}` and excludes
`hash` and `signature`. -/
def blockHashInput (b : Block) : String :=
  String.mk ('C' :: (serEncData b.encryptedData ++
    (serTokens b.tokens ++ (serMeta b.metadata ++ serOptStr b.prevHash))))

/-- Block hash (`calculateBlockHash` in src/block.mjs). -/
def calculateBlockHash (b : Block) : String := sha512 (blockHashInput b)

/-- Serialization signed as `blockData`: the source serializes
`{hash, encryptedData, metadata, prevHash}` (no tokens). -/
def blockDataString (b : Block) : String :=
  String.mk ('G' :: (fenc b.hash.data ++ (serEncData b.encryptedData ++
    (serMeta b.metadata ++ serOptStr b.prevHash))))

/-- Structural validity check (`isValidBlockStructure` in src/src/utils.mjs).
The source checks dynamic JavaScript types of the six block fields; every value
of the typed `Block` structure satisfies all of those checks. -/
def isValidBlockStructure (_ : Block) : Bool := true

/-- Block signature verification (`verifyBlockSignature` in src/block.mjs):
false when the signature or owner key is missing (falsy), otherwise verifies
the signature over `blockData` against `metadata.ownerPubKey`. -/
def verifyBlockSignature (b : Block) : Bool :=
  if b.signature = "" ∨ b.metadata.ownerPubKey = "" then false
  else verifyEd25519 (blockDataString b) b.signature b.metadata.ownerPubKey

/-- Block hash verification (`verifyBlockHash` in src/block.mjs). -/
def verifyBlockHash (b : Block) : Bool := calculateBlockHash b == b.hash

/-! ## Per-field encryption (src/src/crypto.mjs) -/
/-- Symbolic `encryptFields`: encrypts every non-empty field value under `key`
(the source skips null/undefined/empty values). -/
def encryptFields (data : List (String × String)) (key : String) :
    List (String × EncEnvelope) :=
  data.filterMap fun p =>
    if p.2 = "" then none else some (p.1, ⟨key, p.2⟩)

def lookupField : List (String × EncEnvelope) → String → Option EncEnvelope
  | [], _ => none
  | (f, e) :: rest, g => if f = g then some e else lookupField rest g

/-- Symbolic `decryptFields`: decrypts the requested fields that are present;
decryption under a wrong key throws (auth-tag failure), modelled as `.error`. -/
def decryptFields (enc : List (String × EncEnvelope)) (key : String) :
    List String → Except String (List (String × String))
  | [] => .ok []
  | f :: fs =>
    match lookupField enc f with
    | none => decryptFields enc key fs
    | some e =>
      if e.key = key then
        match decryptFields enc key fs with
        | .ok rest => .ok ((f, e.plaintext) :: rest)
        | .error msg => .error msg
      else .error ("decryption failed")

/-- Key rotation (`rotateBlockKey` in src/block.mjs).  The source mutates the
block in place and throws on failure; since the throw happens before any
mutation, failure is modelled as returning the unchanged block together with
the error message. -/
def rotateBlockKey (b : Block) (oldKey newKey : String)
    (newOwnerPublicKey newOwnerPrivateKey newStage : String) (now : Int) :
    Block × Option String :=
  if b.metadata.rotationsLeft ≤ 0 then (b, some ("No rotations left"))
  else
    match decryptFields b.encryptedData oldKey (b.encryptedData.map (·.1)) with
    | .error msg => (b, some msg)
    | .ok decryptedData =>
      let md := { b.metadata with
        ownerPubKey := newOwnerPublicKey
        lifecycleStage := newStage
        rotationsLeft := b.metadata.rotationsLeft - 1
        updatedAt := now }
      let b1 := { b with
        encryptedData := encryptFields decryptedData newKey
        metadata := md }
      let b2 := { b1 with hash := calculateBlockHash b1 }
      ({ b2 with signature := signEd25519 (blockDataString b2) newOwnerPrivateKey },
        none)

/-! ## Genesis / trust anchor (src/src/genesis.mjs) -/
structure KeyPair where
  publicKey : String
  privateKey : String
deriving DecidableEq, Repr

structure Genesis where
  chainId : String
  createdAt : Int
  masterPubKey : String
  networkHandshakeToken : String
  chainSignature : String
deriving DecidableEq, Repr

/-- Encoding of a keypair as stored in the concealed token
(`Buffer.from(JSON.stringify(keyPair)).toString('base64')` in the source). -/
def encodeKeyPair (kp : KeyPair) : List Char :=
  fenc kp.publicKey.data ++ fenc kp.privateKey.data

def parseField : List Char → Option (List Char × List Char)
  | 'E' :: rest => some ([], rest)
  | 'D' :: c :: rest =>
    match parseField rest with
    | some (a, r) => some (c :: a, r)
    | none => none
  | _ => none

/-- Decoding of the keypair (the base64 decode + `JSON.parse` of the source;
returns `none` on malformed input). -/
def decodeKeyPair (l : List Char) : Option KeyPair :=
  match parseField l with
  | none => none
  | some (pub, r) =>
    match parseField r with
    | none => none
    | some (priv, rest) =>
      if rest = [] then some ⟨String.mk pub, String.mk priv⟩ else none

/-- Concealment loop (`concealMasterKey` in src/src/genesis.mjs): after every
`ob`-th encoded character that is not the last one, a segment of random
characters is inserted.  `segs g` is the `g`-th inserted segment; the source
draws `ss` random characters for it. -/
def concealGo (ob : Nat) (segs : Nat → List Char) :
    List Char → Nat → Nat → List Char
  | [], _, _ => []
  | c :: rest, pos, g =>
    if (pos + 1) % ob = 0 ∧ rest ≠ [] then
      c :: (segs g ++ concealGo ob segs rest (pos + 1) (g + 1))
    else
      c :: concealGo ob segs rest (pos + 1) g

/-- Extraction loop (`extractMasterKey` in src/src/genesis.mjs): skips `ss`
characters after every `ob`-th extracted character that is not at the end of
the token. -/
def extractGo (ob ss : Nat) : List Char → Nat → Nat → List Char
  | [], _, _ => []
  | c :: rest, pos, skip =>
    if 0 < skip then extractGo ob ss rest pos (skip - 1)
    else if (pos + 1) % ob = 0 ∧ rest ≠ [] then
      c :: extractGo ob ss rest (pos + 1) ss
    else
      c :: extractGo ob ss rest (pos + 1) 0

/-- `concealMasterKey`, parameterized by the protocol configuration
(`internalOffsetBounds` = `ob`, `internalSegmentSize` = length of each
`segs g`) and by the stream of random segments. -/
def concealMasterKey (kp : KeyPair) (ob : Nat) (segs : Nat → List Char) : String :=
  String.mk (concealGo ob segs (encodeKeyPair kp) 0 0)

/-- `extractMasterKey`, parameterized by the same protocol configuration. -/
def extractMasterKey (token : String) (ob ss : Nat) : Option KeyPair :=
  decodeKeyPair (extractGo ob ss token.data 0 0)

/-- Genesis signing payload: the source serializes
`{chainId, createdAt, masterPubKey}`. -/
def genesisDataString (chainId : String) (createdAt : Int) (masterPubKey : String) :
    String :=
  String.mk ('J' :: (fenc chainId.data ++
    (fenc (toString createdAt).data ++ fenc masterPubKey.data)))

/-- Genesis creation (`createGenesisBlock` in src/src/genesis.mjs).  `now` is
the value of `getCurrentTimestamp()`; the chain id hashes the master public
key concatenated with the timestamp. -/
def createGenesisBlock (kp : KeyPair) (now : Int) (ob : Nat)
    (segs : Nat → List Char) : Genesis :=
  let chainId := sha512 (kp.publicKey ++ toString now)
  { chainId := chainId
    createdAt := now
    masterPubKey := kp.publicKey
    networkHandshakeToken := concealMasterKey kp ob segs
    chainSignature :=
      signEd25519 (genesisDataString chainId now kp.publicKey) kp.privateKey }

/-- Genesis verification (`verifyGenesisBlock` in src/src/genesis.mjs). -/
def verifyGenesisBlock (g : Genesis) : Bool :=
  if g.masterPubKey = "" ∨ g.chainSignature = "" then false
  else verifyEd25519 (genesisDataString g.chainId g.createdAt g.masterPubKey)
    g.chainSignature g.masterPubKey

/-! ## Chain ledger (src/src/chain.mjs)

The module-level mutable variables `chain`, `chainHash`, `chainSignature` form
the chain state; the genesis module state (`genesisBlock`, `masterKeyPair`) is
the node context.  Mutation is modelled by explicit state passing. -/
structure ChainState where
  chain : List Block
  chainHash : Option String
  chainSignature : Option String
deriving DecidableEq, Repr

structure NodeCtx where
  genesisBlock : Option Genesis
  masterKeyPair : Option KeyPair
deriving DecidableEq, Repr

/-- Serialization of the chain-level hash payload
(`{chainId, blocks: chain.map(b => b.hash), length}`). -/
def serHashList : List String → List Char
  | [] => ['0']
  | h :: rest => '1' :: (fenc h.data ++ serHashList rest)

def chainHashInput (chainId : String) (blocks : List Block) : String :=
  String.mk ('Q' :: (fenc chainId.data ++
    (serHashList (blocks.map (·.hash)) ++ fenc (toString blocks.length).data)))

/-- Chain hash (`calculateChainHash`): `none` when no genesis is set. -/
def calculateChainHash (ctx : NodeCtx) (blocks : List Block) : Option String :=
  match ctx.genesisBlock with
  | none => none
  | some g => some (sha512 (chainHashInput g.chainId blocks))

/-- `updateChainHash`: recomputes the chain hash and, when the master keypair
and the hash are available, re-signs it. -/
def updateChainHash (ctx : NodeCtx) (st : ChainState) : ChainState :=
  let ch := calculateChainHash ctx st.chain
  let sig :=
    match ctx.masterKeyPair, ch with
    | some kp, some h => some (signEd25519 h kp.privateKey)
    | _, _ => st.chainSignature
  { st with chainHash := ch, chainSignature := sig }

/-- Chain authenticity (`verifyChainAuthenticity`): verification of the chain
signature over the chain hash against the master public key.  A `none` hash or
signature makes `crypto.verify` throw in the source, which is caught and
returned as `false`. -/
def verifyChainAuthenticity (hash sig : Option String) (masterPubKey : String) :
    Bool :=
  match hash, sig with
  | some h, some s => verifyEd25519 h s masterPubKey
  | _, _ => false

/-- The per-block loop of `verifyChainIntegrity`: checks each block hash and
signature, and from the second block on the `prevHash` linkage. -/
def checkBlocks : Option Block → List Block → Bool
  | _, [] => true
  | prev, b :: rest =>
    verifyBlockHash b && verifyBlockSignature b &&
      (match prev with
       | none => true
       | some p => b.prevHash == some p.hash) &&
      checkBlocks (some b) rest

/-- The linkage invariant: every block after the first points at its
hash of the predecessor. -/
def linkOk (l : List Block) : Prop :=
  ∀ i, (h : i + 1 < l.length) →
    (l.get ⟨i + 1, h⟩).prevHash = some ((l.get ⟨i, Nat.lt_of_succ_lt h⟩).hash)

/-- The head invariant: the first block of a non-empty chain has a null
`prevHash`. -/
def headOk (l : List Block) : Prop :=
  ∀ b, l.head? = some b → b.prevHash = none

/-- The block that precedes a suffix when `l` is traversed after `p`. -/
def lastD (p : Option Block) (l : List Block) : Option Block :=
  match l.getLast? with
  | some b => some b
  | none => p

/-- Chain-wide integrity check (`verifyChainIntegrity`): every block verifies
and links, the recomputed chain hash matches the stored one, and when a genesis
and a chain signature are present the signature verifies against the master
public key. -/
def verifyChainIntegrity (ctx : NodeCtx) (st : ChainState) : Bool :=
  checkBlocks none st.chain &&
    (calculateChainHash ctx st.chain == st.chainHash) &&
    (match ctx.genesisBlock, st.chainSignature with
     | some g, some sig => verifyChainAuthenticity st.chainHash (some sig) g.masterPubKey
     | _, _ => true)

/-- Append (`addBlock`): validates structure, hash, signature and linkage
against the current tail (null `prevHash` for an empty chain), then pushes and
re-derives the chain hash. -/
def addBlock (ctx : NodeCtx) (st : ChainState) (newBlock : Block) :
    Bool × ChainState :=
  if ¬ isValidBlockStructure newBlock then (false, st)
  else if ¬ verifyBlockHash newBlock then (false, st)
  else if ¬ verifyBlockSignature newBlock then (false, st)
  else
    match st.chain.getLast? with
    | some lastBlock =>
      if newBlock.prevHash ≠ some lastBlock.hash then (false, st)
      else (true, updateChainHash ctx { st with chain := st.chain ++ [newBlock] })
    | none =>
      if newBlock.prevHash ≠ none then (false, st)
      else (true, updateChainHash ctx { st with chain := st.chain ++ [newBlock] })

/-- `Array.prototype.findIndex`, as used by `updateBlockInChain`. -/
def findIdxA (p : Block → Bool) : List Block → Option Nat
  | [] => none
  | b :: rest => if p b then some 0 else (findIdxA p rest).map (· + 1)

/-- One step of the relink loop of `updateBlockInChain`: the block's
`prevHash` is rewritten to the hash of the predecessor and its hash recomputed (the
hash serialization does not read the `hash` field, so the order of the two
source assignments is immaterial); the signature is not touched. -/
def relinkStep (prev b : Block) : Block :=
  { b with prevHash := some prev.hash,
           hash := calculateBlockHash { b with prevHash := some prev.hash } }

/-- The cascading relink loop of `updateBlockInChain`: each subsequent block
gets `prevHash` rewritten to the (already relinked) hash of the predecessor and its
hash recomputed; signatures are not touched. -/
def relink : Block → List Block → List Block
  | _, [] => []
  | prev, b :: rest => relinkStep prev b :: relink (relinkStep prev b) rest

/-- In-place update (`updateBlockInChain`): finds the block by hash, verifies
the replacement, installs it, relinks all subsequent blocks and re-derives the
chain hash. -/
def updateBlockInChain (ctx : NodeCtx) (st : ChainState) (hash : String)
    (updatedBlock : Block) : Bool × ChainState :=
  match findIdxA (fun b => b.hash == hash) st.chain with
  | none => (false, st)
  | some index =>
    if ¬ verifyBlockHash updatedBlock then (false, st)
    else if ¬ verifyBlockSignature updatedBlock then (false, st)
    else
      let newChain := st.chain.take index ++
        updatedBlock :: relink updatedBlock (st.chain.drop (index + 1))
      (true, updateChainHash ctx { st with chain := newChain })

/-- Atomic replacement (`replaceChain`): verifies the candidate signature,
stages the candidate state, validates integrity, and on failure restores the
saved original state.  The source dereferences `genesisBlock.masterPubKey`
unconditionally, so the embedding is only exercised with a genesis present. -/
def replaceChain (ctx : NodeCtx) (st : ChainState) (newChain : List Block)
    (newChainHash newChainSignature : Option String) : Bool × ChainState :=
  match ctx.genesisBlock with
  | none => (false, st)
  | some g =>
    if ¬ verifyChainAuthenticity newChainHash newChainSignature g.masterPubKey then
      (false, st)
    else
      let staged : ChainState :=
        { chain := newChain, chainHash := newChainHash,
          chainSignature := newChainSignature }
      if ¬ verifyChainIntegrity ctx staged then (false, st)
      else (true, staged)

/-- The `lastUpdated` component of `getChainMetadata`: the `updatedAt` of the
last block, or null for an empty chain. -/
def metadataLastUpdated (st : ChainState) : Option Int :=
  match st.chain.getLast? with
  | some b => some b.metadata.updatedAt
  | none => none

/-! ## Peer handshake (src/src/peer-handshake.mjs) -/
/-- Wire shape of `HANDSHAKE` / `HANDSHAKE_RESPONSE` messages; absent or null
JSON fields are `none`. -/
structure HandshakeMsg where
  type : String
  peerId : String
  chainId : Option String
  chainLength : Int
  chainHash : Option String
  chainSignature : Option String
  masterPubKey : Option String
  lastUpdated : Option Int
  timestamp : Int
deriving DecidableEq, Repr

/-- Result shapes returned by `validateHandshakeResponse`. -/
inductive HandshakeValidation where
  | invalid (reason : String)
  | valid (needsSync : Bool) (peerChainLength : Int) (peerLastUpdated : Option Int)
deriving DecidableEq, Repr

/-- `validateHandshakeResponse` as it stands in src/src/peer-handshake.mjs:
rejects a missing response, a wrong type, a known-vs-known chain-id mismatch,
and an unverifiable chain signature.  The `needsSync` computation of the
source is `(response.chainLength > metadata.length || true)`; the
length/recency comparison sits in a comment directly above that line. -/
def validateHandshakeResponse (ctx : NodeCtx) (st : ChainState)
    (response : Option HandshakeMsg) : HandshakeValidation :=
  match response with
  | none => .invalid ("No response received")
  | some r =>
    if r.type ≠ "HANDSHAKE_RESPONSE" then .invalid ("Invalid response type")
    else
      let chainIdMismatch : Bool :=
        match r.chainId, ctx.genesisBlock with
        | some cid, some g => cid != g.chainId
        | _, _ => false
      if chainIdMismatch then .invalid ("Different chain ID")
      else
        let needsSync := (r.chainLength > (st.chain.length : Int)) || true
        match r.chainHash, r.chainSignature, r.masterPubKey with
        | some h, some s, some p =>
          if verifyEd25519 h s p then .valid needsSync r.chainLength r.lastUpdated
          else .invalid ("Invalid chain signature")
        | _, _, _ => .valid needsSync r.chainLength r.lastUpdated

/-! ## Peer gossip (src/src/peer-gossip.mjs) -/
structure GossipMsg where
  type : String
  chainLength : Int
  chainHash : Option String
  lastUpdated : Option Int
  timestamp : Int
deriving DecidableEq, Repr

structure PeerInfo where
  chainLength : Int
  chainHash : Option String
  lastUpdated : Option Int
  lastSeen : Int
deriving DecidableEq, Repr

inductive GossipAction where
  | sync (peerAddress : String) (chainLength : Int) (lastUpdated : Option Int)
  | ignore (reason : String)
deriving DecidableEq, Repr

/-- `Map.prototype.set` on the insertion-ordered `connectedPeers` map. -/
def mapSet : List (String × PeerInfo) → String → PeerInfo →
    List (String × PeerInfo)
  | [], k, v => [(k, v)]
  | (k0, v0) :: rest, k, v =>
    if k0 = k then (k0, v) :: rest else (k0, v0) :: mapSet rest k v

/-- JavaScript `>` between a number-or-null and a number-or-null: `null`
coerces to 0. -/
def jsGtOpt (a b : Option Int) : Bool := a.getD 0 > b.getD 0

/-- `handleGossip`: on a `GOSSIP` message, records the summary of the sender in
`connectedPeers` and signals a sync when the chain of the sender is longer, or
equal-length and more recently updated, than the local one. -/
def handleGossip (st : ChainState) (peers : List (String × PeerInfo))
    (message : GossipMsg) (peerAddress : String) (now : Int) :
    GossipAction × List (String × PeerInfo) :=
  if message.type ≠ "GOSSIP" then (.ignore ("Invalid message type"), peers)
  else
    let peers' := mapSet peers peerAddress
      ⟨message.chainLength, message.chainHash, message.lastUpdated, now⟩
    if message.chainLength > (st.chain.length : Int) ∨
        (message.chainLength = (st.chain.length : Int) ∧
          jsGtOpt message.lastUpdated (metadataLastUpdated st)) then
      (.sync peerAddress message.chainLength message.lastUpdated, peers')
    else
      (.ignore ("Chain up to date"), peers')

/-! ## Peer synchronization (src/src/peer-sync.mjs) -/
structure SyncRequest where
  type : String
  fromIndex : Nat
  timestamp : Int
deriving DecidableEq, Repr

/-- Wire shape of `SYNC_RESPONSE`.  `genesisBlock` is the optional genesis
payload that `applySyncData` reads from the message. -/
structure SyncResponse where
  type : String
  fromIndex : Nat
  blocks : List Block
  chainHash : Option String
  chainSignature : Option String
  totalLength : Nat
  genesisBlock : Option Genesis
  timestamp : Int
deriving DecidableEq, Repr

instance : DecidableEq (Except String SyncResponse) := fun a b =>
  match a, b with
  | .ok x, .ok y =>
    if h : x = y then isTrue (by rw [h]) else isFalse (by simp [h])
  | .error x, .error y =>
    if h : x = y then isTrue (by rw [h]) else isFalse (by simp [h])
  | .ok _, .error _ => isFalse (by simp)
  | .error _, .ok _ => isFalse (by simp)

/-- `handleSyncRequest`: serves the blocks from `fromIndex` on together with
the current chain hash, signature and total length.  The object literal of the
source has no `genesisBlock` property, so the field is always `none`.  A
non-`SYNC_REQUEST` message throws. -/
def handleSyncRequest (ctx : NodeCtx) (st : ChainState) (message : SyncRequest)
    (now : Int) : Except String SyncResponse :=
  if message.type ≠ "SYNC_REQUEST" then .error ("Invalid message type")
  else
    .ok { type := "SYNC_RESPONSE"
          fromIndex := message.fromIndex
          blocks := st.chain.drop message.fromIndex
          chainHash := st.chainHash
          chainSignature := st.chainSignature
          totalLength := st.chain.length
          genesisBlock := none
          timestamp := now }

/-- `genesis.setGenesisBlock`: installs a genesis and, when no master keypair
is known yet, extracts one from the concealed token. -/
def setGenesisBlock (ctx : NodeCtx) (g : Genesis) (ob ss : Nat) : NodeCtx :=
  { genesisBlock := some g
    masterKeyPair :=
      match ctx.masterKeyPair with
      | some kp => some kp
      | none =>
        if g.networkHandshakeToken ≠ "" then
          extractMasterKey g.networkHandshakeToken ob ss
        else none }

/-- `applySyncData` (persistence side effects omitted): assembles the
candidate chain, adopts the genesis supplied by the peer when the local node has none and
the candidate carries a master public key and a chain signature (aborting the
sync otherwise), and hands the candidate to `replaceChain`. -/
def applySyncData (ctx : NodeCtx) (st : ChainState) (syncData : SyncResponse)
    (ob ss : Nat) : Bool × NodeCtx × ChainState :=
  if syncData.type ≠ "SYNC_RESPONSE" then (false, ctx, st)
  else if syncData.blocks = [] then (true, ctx, st)
  else
    let newChain :=
      if syncData.fromIndex = 0 then syncData.blocks
      else st.chain.take syncData.fromIndex ++ syncData.blocks
    let ctxResult : Option NodeCtx :=
      match ctx.genesisBlock with
      | some _ => some ctx
      | none =>
        match syncData.genesisBlock with
        | none => none
        | some candidate =>
          if candidate.masterPubKey ≠ "" ∧ candidate.chainSignature ≠ "" then
            some (setGenesisBlock ctx candidate ob ss)
          else none
    match ctxResult with
    | none => (false, ctx, st)
    | some ctx' =>
      let r := replaceChain ctx' st newChain syncData.chainHash syncData.chainSignature
      (r.1, ctx', r.2)

structure PeerCandidate where
  address : String
  chainLength : Int
  lastUpdated : Int
deriving DecidableEq, Repr

instance : Inhabited PeerCandidate := ⟨⟨"", 0, 0⟩⟩

/-- The sort order of `syncWithBestPeer`: chain length descending, then
`lastUpdated` descending (the comparator `b.chainLength - a.chainLength`,
ties broken by `b.lastUpdated - a.lastUpdated`). -/
def peerLe (a b : PeerCandidate) : Bool :=
  if a.chainLength ≠ b.chainLength then a.chainLength > b.chainLength
  else a.lastUpdated ≥ b.lastUpdated

def peerInsert (a : PeerCandidate) : List PeerCandidate → List PeerCandidate
  | [] => [a]
  | b :: rest => if peerLe a b then a :: b :: rest else b :: peerInsert a rest

/-- Stable sort by `peerLe`, modelling `Array.prototype.sort` with the
comparator above. -/
def sortPeers : List PeerCandidate → List PeerCandidate
  | [] => []
  | a :: rest => peerInsert a (sortPeers rest)

/-- `syncWithBestPeer`: sorts the candidates and attempts a sync with the
single top-ranked candidate.  The network-performing `syncWithPeer` is
abstracted by `trySync : address → fromIndex → result`. -/
def syncWithBestPeer (peers : List PeerCandidate)
    (trySync : String → Nat → Bool) (currentLength : Nat) : Bool :=
  match sortPeers peers with
  | [] => false
  | bestPeer :: _ =>
    let fromIndex :=
      if bestPeer.chainLength > (currentLength : Int) then currentLength else 0
    trySync bestPeer.address fromIndex

/-! ## Concrete fixtures used by witnesses and counterexamples

All strings are kept to one character so that the symbolic hash and signature
values stay small and concrete evaluation stays cheap. -/
/-- A master keypair for concrete instances. -/
def masterKp : KeyPair := ⟨privToPub ("m"), "m"⟩

/-- A concrete genesis created from `masterKp` at time 1. -/
def g0 : Genesis := createGenesisBlock masterKp 1 16 (fun _ => ['x', 'y'])

/-- Node context holding `g0` and the master keypair. -/
def ctx0 : NodeCtx := ⟨some g0, some masterKp⟩

/-- Node context holding `g0` but no master keypair (a non-bootstrap node). -/
def ctxNG : NodeCtx := ⟨some g0, none⟩

/-- The chain state of a fresh node (empty chain, hash and
signature derived). -/
def st0 : ChainState := updateChainHash ctx0 ⟨[], none, none⟩

/-- Builds a block the way `createBlock` does: content first, then the hash,
then the signature over the hashed block data. -/
def mkBlock (enc : List (String × EncEnvelope)) (md : BlockMeta)
    (prev : Option String) (priv : String) : Block :=
  let b0 : Block := ⟨"", enc, [], md, prev, ""⟩
  let b1 := { b0 with hash := calculateBlockHash b0 }
  { b1 with signature := signEd25519 (blockDataString b1) priv }

/-- Owner metadata for concrete blocks. -/
def md0 : BlockMeta := ⟨0, 0, privToPub ("o"), "g", none, 3⟩

/-- First concrete block. -/
def bA : Block := mkBlock [] md0 none ("o")

/-- Second concrete block, linked to `bA`. -/
def bB : Block := mkBlock [] md0 (some bA.hash) ("o")

/-- A block whose rotations are exhausted. -/
def mdExhausted : BlockMeta := ⟨0, 0, privToPub ("o"), "s", none, 0⟩

def bExhausted : Block := mkBlock [("n", ⟨"k", "c"⟩)] mdExhausted none ("o")

/-- A self-consistent block whose `prevHash` is the non-null string `z` that
names no predecessor. -/
def bFloat : Block := mkBlock [] md0 (some ("z")) ("o")

/-- The chain hash of the one-block chain `[bFloat]` under `g0`. -/
def chF : String := sha512 (chainHashInput g0.chainId [bFloat])

def nh2 : Option String := some chF

def ns2 : Option String := some (signEd25519 chF ("m"))

/-- State of a node holding the two linked blocks `[bA, bB]` with a derived
chain hash but no chain signature (`ctxNG` has no master keypair). -/
def stAB : ChainState := updateChainHash ctxNG ⟨[bA, bB], none, none⟩

/-- A valid replacement for `bA` with different content, hence a different
hash. -/
def bU : Block := mkBlock [("n", ⟨"k", "a"⟩)] md0 none ("o")

/-! Fixtures for C6. -/
def cand1 : PeerCandidate := ⟨"p1", 5, 0⟩

def cand2 : PeerCandidate := ⟨"p2", 4, 0⟩

def trySyncCex : String → Nat → Bool := fun a _ => a == "p2"

/-! Fixtures for C3. -/
/-- Local state holding three blocks (contents are irrelevant to handshake
validation, which only reads the chain length). -/
def st3 : ChainState := ⟨[bA, bA, bA], none, none⟩

/-- A well-formed response from a peer whose chain is strictly shorter (length
2 against local 3) and not newer. -/
def respShorter : HandshakeMsg :=
  ⟨"HANDSHAKE_RESPONSE", "peer1", none, 2, none, none, none, some 0, 0⟩

/-! Fixtures for C5. -/
/-- State of a node holding one block on top of `g0` (the state `addBlock`
produces when appending `bA` to the fresh chain). -/
def st1 : ChainState := updateChainHash ctx0 ⟨[bA], none, none⟩

def syncReq0 : SyncRequest := ⟨"SYNC_REQUEST", 0, 0⟩

/-- The `SYNC_RESPONSE` that `handleSyncRequest` produces for `syncReq0` on
`st1`. -/
def resp0 : SyncResponse :=
  ⟨"SYNC_RESPONSE", 0, st1.chain, st1.chainHash, st1.chainSignature,
    st1.chain.length, none, 7⟩

def zeroCtx : NodeCtx := ⟨none, none⟩

def zeroSt : ChainState := ⟨[], none, none⟩

/-- A block whose interior link is broken: its `prevHash` names no real
predecessor. -/
def bBbad : Block := mkBlock [] md0 (some ("w")) ("o")

/-- A gossip message reporting a longer chain. -/
def gmsg : GossipMsg := ⟨"GOSSIP", 1, none, some 5, 0⟩

/-! ## Theorems -/

theorem fenc_append_inj : ∀ (a b r s : List Char),
    fenc a ++ r = fenc b ++ s → a = b ∧ r = s := by
  intro a
  induction a with
  | nil =>
    intro b r s h
    cases b with
    | nil => simpa [fenc] using h
    | cons d ds => simp [fenc] at h
  | cons c cs ih =>
    intro b r s h
    cases b with
    | nil => simp [fenc] at h
    | cons d ds =>
      simp only [fenc, List.cons_append, List.cons.injEq] at h
      obtain ⟨-, hcd, hrest⟩ := h
      obtain ⟨h1, h2⟩ := ih ds r s hrest
      exact ⟨by simp [hcd, h1], h2⟩

theorem fenc_inj {a b : List Char} (h : fenc a = fenc b) : a = b := by
  have := fenc_append_inj a b [] [] (by simpa using h)
  exact this.1

theorem string_mk_inj {a b : List Char} (h : String.mk a = String.mk b) :
    a = b := by
  have := congrArg String.data h
  simpa using this

theorem string_data_inj {a b : String} (h : a.data = b.data) : a = b := by
  cases a; cases b; exact congrArg String.mk h

theorem sha512_inj {a b : String} (h : sha512 a = sha512 b) : a = b := by
  have h1 := string_mk_inj h
  simp only [List.cons.injEq] at h1
  exact string_data_inj (fenc_inj h1.2)

theorem mkSigStr_inj {d1 p1 d2 p2 : String}
    (h : mkSigStr d1 p1 = mkSigStr d2 p2) : d1 = d2 ∧ p1 = p2 := by
  have h1 := string_mk_inj h
  simp only [List.cons.injEq] at h1
  obtain ⟨hd, hp⟩ := fenc_append_inj _ _ _ _ h1.2
  exact ⟨string_data_inj hd, string_data_inj (fenc_inj hp)⟩

theorem verify_sign (data priv : String) :
    verifyEd25519 data (signEd25519 data priv) (privToPub priv) = true := by
  simp [verifyEd25519, signEd25519]

theorem serOptStr_append_inj : ∀ (o1 o2 : Option String) (r s : List Char),
    serOptStr o1 ++ r = serOptStr o2 ++ s → o1 = o2 ∧ r = s := by
  intro o1 o2 r s h
  cases o1 <;> cases o2 <;> simp [serOptStr] at h ⊢
  · exact h
  · obtain ⟨h1, h2⟩ := fenc_append_inj _ _ _ _ h
    exact ⟨string_data_inj h1, h2⟩

theorem serOptInt_append_inj : ∀ (o1 o2 : Option Int) (r s : List Char),
    serOptInt o1 ++ r = serOptInt o2 ++ s → r = s := by
  intro o1 o2 r s h
  cases o1 <;> cases o2 <;> simp [serOptInt] at h ⊢
  · exact h
  · exact (fenc_append_inj _ _ _ _ h).2

theorem serEncData_append_inj : ∀ (l1 l2 : List (String × EncEnvelope))
    (r s : List Char), serEncData l1 ++ r = serEncData l2 ++ s →
    l1 = l2 ∧ r = s := by
  intro l1
  induction l1 with
  | nil =>
    intro l2 r s h
    cases l2 with
    | nil => simpa [serEncData] using h
    | cons p rest => obtain ⟨f, e⟩ := p; simp [serEncData] at h
  | cons p1 rest1 ih =>
    obtain ⟨f1, e1⟩ := p1
    intro l2 r s h
    cases l2 with
    | nil => simp [serEncData] at h
    | cons p2 rest2 =>
      obtain ⟨f2, e2⟩ := p2
      simp only [serEncData, List.cons_append, List.append_assoc,
        List.cons.injEq] at h
      obtain ⟨hf, hrest⟩ := fenc_append_inj _ _ _ _ h.2
      obtain ⟨hk, hrest2⟩ := fenc_append_inj _ _ _ _ (by
        simpa [serEnvelope, List.append_assoc] using hrest)
      obtain ⟨hp, hrest3⟩ := fenc_append_inj _ _ _ _ hrest2
      obtain ⟨hl, hr⟩ := ih rest2 r s hrest3
      refine ⟨?_, hr⟩
      have he : e1 = e2 := by
        cases e1; cases e2
        simp only at hk hp
        simp only [EncEnvelope.mk.injEq]
        exact ⟨string_data_inj hk, string_data_inj hp⟩
      simp [string_data_inj hf, hl, he]

theorem serTokens_append_inj : ∀ (l1 l2 : List (String × String))
    (r s : List Char), serTokens l1 ++ r = serTokens l2 ++ s → r = s := by
  intro l1
  induction l1 with
  | nil =>
    intro l2 r s h
    cases l2 with
    | nil => simpa [serTokens] using h
    | cons p rest => obtain ⟨k, v⟩ := p; simp [serTokens] at h
  | cons p1 rest1 ih =>
    obtain ⟨k1, v1⟩ := p1
    intro l2 r s h
    cases l2 with
    | nil => simp [serTokens] at h
    | cons p2 rest2 =>
      obtain ⟨k2, v2⟩ := p2
      simp only [serTokens, List.cons_append, List.append_assoc,
        List.cons.injEq] at h
      obtain ⟨hk, hrest⟩ := fenc_append_inj _ _ _ _ h.2
      obtain ⟨hv, hrest2⟩ := fenc_append_inj _ _ _ _ hrest
      exact ih rest2 r s hrest2

theorem serMeta_append_inj : ∀ (m1 m2 : BlockMeta) (r s : List Char),
    serMeta m1 ++ r = serMeta m2 ++ s → r = s := by
  intro m1 m2 r s h
  simp only [serMeta, List.append_assoc] at h
  obtain ⟨-, h⟩ := fenc_append_inj _ _ _ _ h
  obtain ⟨-, h⟩ := fenc_append_inj _ _ _ _ h
  obtain ⟨-, h⟩ := fenc_append_inj _ _ _ _ h
  obtain ⟨-, h⟩ := fenc_append_inj _ _ _ _ h
  have h := serOptInt_append_inj _ _ _ _ h
  exact (fenc_append_inj _ _ _ _ h).2

theorem blockHashInput_prevHash_inj {b1 b2 : Block}
    (h : blockHashInput b1 = blockHashInput b2) : b1.prevHash = b2.prevHash := by
  have h1 := string_mk_inj h
  simp only [List.cons.injEq] at h1
  have h2 := (serEncData_append_inj _ _ _ _ h1.2).2
  have h3 := serTokens_append_inj _ _ _ _ h2
  have h4 := serMeta_append_inj _ _ _ _ h3
  have h5 := serOptStr_append_inj _ _ [] [] (by simpa using h4)
  exact h5.1

theorem calculateBlockHash_prevHash_inj {b1 b2 : Block}
    (h : calculateBlockHash b1 = calculateBlockHash b2) :
    b1.prevHash = b2.prevHash :=
  blockHashInput_prevHash_inj (sha512_inj h)

theorem blockDataString_prevHash_inj {b1 b2 : Block}
    (h : blockDataString b1 = blockDataString b2) : b1.prevHash = b2.prevHash := by
  have h1 := string_mk_inj h
  simp only [List.cons.injEq] at h1
  have h2 := (fenc_append_inj _ _ _ _ h1.2).2
  have h3 := (serEncData_append_inj _ _ _ _ h2).2
  have h4 := serMeta_append_inj _ _ _ _ h3
  have h5 := serOptStr_append_inj _ _ [] [] (by simpa using h4)
  exact h5.1

theorem parseField_fenc : ∀ (a r : List Char), parseField (fenc a ++ r) = some (a, r) := by
  intro a
  induction a with
  | nil => intro r; simp [fenc, parseField]
  | cons c cs ih => intro r; simp [fenc, parseField, ih]

theorem parseField_fenc_nil (a : List Char) : parseField (fenc a) = some (a, []) := by
  simpa using parseField_fenc a []

theorem decode_encode (kp : KeyPair) : decodeKeyPair (encodeKeyPair kp) = some kp := by
  simp [decodeKeyPair, encodeKeyPair, parseField_fenc, parseField_fenc_nil]

theorem concealGo_ne_nil (ob : Nat) (segs : Nat → List Char) (cs : List Char)
    (pos g : Nat) (h : cs ≠ []) : concealGo ob segs cs pos g ≠ [] := by
  cases cs with
  | nil => exact absurd rfl h
  | cons c rest =>
    simp only [concealGo]
    split <;> simp

theorem extractGo_skip (ob ss : Nat) : ∀ (seg tok : List Char) (pos : Nat),
    extractGo ob ss (seg ++ tok) pos seg.length = extractGo ob ss tok pos 0 := by
  intro seg
  induction seg with
  | nil =>
    intro tok pos
    cases tok <;> simp [extractGo]
  | cons c seg' ih =>
    intro tok pos
    simp only [List.cons_append, List.length_cons, extractGo]
    rw [if_pos (Nat.succ_pos _)]
    simpa using ih tok pos

theorem extract_concealGo (ob ss : Nat) (segs : Nat → List Char)
    (hseg : ∀ k, (segs k).length = ss) :
    ∀ (cs : List Char) (pos g : Nat),
    extractGo ob ss (concealGo ob segs cs pos g) pos 0 = cs := by
  intro cs
  induction cs with
  | nil => intro pos g; simp [concealGo, extractGo]
  | cons c rest ih =>
    intro pos g
    by_cases hc : (pos + 1) % ob = 0 ∧ rest ≠ []
    · rw [concealGo, if_pos hc]
      rw [extractGo]
      rw [if_neg (by omega)]
      rw [if_pos ⟨hc.1, by
        intro hnil
        exact concealGo_ne_nil ob segs rest (pos + 1) (g + 1) hc.2
          (List.append_eq_nil.mp hnil).2⟩]
      rw [← hseg g, extractGo_skip, hseg g, ih]
    · rw [concealGo, if_neg hc]
      rcases Classical.em (rest = []) with hrest | hrest
      · subst hrest
        simp [concealGo, extractGo]
      · have hm : ¬ (pos + 1) % ob = 0 := fun hmod => hc ⟨hmod, hrest⟩
        rw [extractGo]
        rw [if_neg (by omega)]
        rw [if_neg (by exact fun hand => hm hand.1)]
        rw [ih]

theorem extract_conceal (kp : KeyPair) (ob ss : Nat) (segs : Nat → List Char)
    (hseg : ∀ k, (segs k).length = ss) :
    extractMasterKey (concealMasterKey kp ob segs) ob ss = some kp := by
  unfold extractMasterKey concealMasterKey
  rw [show (String.mk (concealGo ob segs (encodeKeyPair kp) 0 0)).data
      = concealGo ob segs (encodeKeyPair kp) 0 0 from rfl]
  rw [extract_concealGo ob ss segs hseg]
  exact decode_encode kp

/-! ## Claim theorems -/
/-- C4 counterexample: `createGenesisBlock` is not determined by the master
keypair alone — the same keypair used at timestamps 1 and 2 yields two
different `chainId`s, because the chain seed concatenates the public key with
`getCurrentTimestamp()`. -/
theorem chainId_depends_on_timestamp :
    (createGenesisBlock masterKp 1 16 (fun _ => ['x', 'y'])).chainId ≠
      (createGenesisBlock masterKp 2 16 (fun _ => ['x', 'y'])).chainId := by
  decide

/-- C4 (amended): the `chainId` produced by `createGenesisBlock` is a
deterministic function of the master public key and the creation timestamp;
in particular it does not depend on the random characters drawn for the
concealed token nor on the concealment configuration. -/
theorem chainId_deterministic_given_timestamp (kp : KeyPair) (now : Int)
    (ob1 ob2 : Nat) (segs1 segs2 : Nat → List Char) :
    (createGenesisBlock kp now ob1 segs1).chainId =
      (createGenesisBlock kp now ob2 segs2).chainId := rfl

/-- C10: for every protocol configuration with `internalOffsetBounds ≥ 1` and
any segment size, `extractMasterKey` recovers exactly the keypair concealed by
`concealMasterKey`, regardless of which random characters concealment
injects. -/
theorem extract_conceal_roundtrip (kp : KeyPair) (ob ss : Nat)
    (segs : Nat → List Char) (hob : 1 ≤ ob)
    (hseg : ∀ k, (segs k).length = ss) :
    extractMasterKey (concealMasterKey kp ob segs) ob ss = some kp :=
  extract_conceal kp ob ss segs hseg

/-- Witness for C10 at the shipped configuration (offset 16, segment size 2). -/
theorem extract_conceal_roundtrip_witness :
    extractMasterKey (concealMasterKey masterKp 16 (fun _ => ['x', 'y'])) 16 2 =
      some masterKp :=
  extract_conceal_roundtrip masterKp 16 2 (fun _ => ['x', 'y']) (by decide)
    (fun _ => rfl)

/-- C7: `rotateBlockKey` fails on a block with `rotationsLeft ≤ 0` leaving the
block entirely unchanged; on a block with `rotationsLeft > 0` whose data
decrypts under the old key it decrements `rotationsLeft` by exactly one, sets
`ownerPubKey` and `lifecycleStage` to the new values, re-encrypts under the
new key, recomputes the hash, and signs with the new private key. -/
theorem rotateBlockKey_spec (b : Block) (oldKey newKey : String)
    (npub npriv nstage : String) (now : Int) :
    (b.metadata.rotationsLeft ≤ 0 →
      rotateBlockKey b oldKey newKey npub npriv nstage now =
        (b, some ("No rotations left"))) ∧
    (0 < b.metadata.rotationsLeft →
      ∀ dec, decryptFields b.encryptedData oldKey (b.encryptedData.map (·.1)) =
          .ok dec →
      (rotateBlockKey b oldKey newKey npub npriv nstage now).2 = none ∧
      (rotateBlockKey b oldKey newKey npub npriv nstage now).1.metadata.rotationsLeft =
        b.metadata.rotationsLeft - 1 ∧
      (rotateBlockKey b oldKey newKey npub npriv nstage now).1.metadata.ownerPubKey =
        npub ∧
      (rotateBlockKey b oldKey newKey npub npriv nstage now).1.metadata.lifecycleStage =
        nstage ∧
      (rotateBlockKey b oldKey newKey npub npriv nstage now).1.encryptedData =
        encryptFields dec newKey ∧
      verifyBlockHash (rotateBlockKey b oldKey newKey npub npriv nstage now).1 =
        true ∧
      (rotateBlockKey b oldKey newKey npub npriv nstage now).1.signature =
        signEd25519
          (blockDataString (rotateBlockKey b oldKey newKey npub npriv nstage now).1)
          npriv) := by
  constructor
  · intro h
    unfold rotateBlockKey
    rw [if_pos h]
  · intro h dec hdec
    unfold rotateBlockKey
    rw [if_neg (by omega), hdec]
    refine ⟨rfl, rfl, rfl, rfl, rfl, ?_, rfl⟩
    simp only [verifyBlockHash, beq_iff_eq]
    rfl

/-- Witness for C7: on a concrete block with `rotationsLeft = 0` the rotation
fails and returns the unchanged block. -/
theorem rotateBlockKey_spec_witness :
    rotateBlockKey bExhausted ("k1") ("k2") ("npub") ("npriv") ("guardian") 9 =
      (bExhausted, some ("No rotations left")) :=
  (rotateBlockKey_spec bExhausted ("k1") ("k2") ("npub") ("npriv") ("guardian") 9).1
    (by decide)

/-- C6 counterexample: `syncWithBestPeer` attempts only the top-ranked
candidate.  With two candidates where the sync against the top-ranked `p1`
fails while a sync against the next-best `p2` would succeed, the call returns
`false` — there is no fall-through to further candidates. -/
theorem syncWithBestPeer_no_fallback :
    syncWithBestPeer [cand2, cand1] trySyncCex 3 = false ∧
      trySyncCex ("p2") 3 = true := by
  decide

/-- C6 (amended): `syncWithBestPeer` ranks the candidates by chain length
descending then `lastUpdated` descending, and its result is exactly the result
of the single sync attempt against the top-ranked candidate (so candidates
other than the top-ranked one are never attempted). -/
theorem syncWithBestPeer_single_attempt (peers : List PeerCandidate)
    (trySync : String → Nat → Bool) (currentLength : Nat) (h : peers ≠ []) :
    syncWithBestPeer peers trySync currentLength =
      trySync ((sortPeers peers).headI.address)
        (if (sortPeers peers).headI.chainLength > (currentLength : Int)
          then currentLength else 0) := by
  have hne : sortPeers peers ≠ [] := by
    cases peers with
    | nil => exact absurd rfl h
    | cons a rest =>
      simp only [sortPeers]
      cases hs : sortPeers rest with
      | nil => simp [peerInsert]
      | cons b r =>
        simp only [peerInsert]
        split <;> simp
  cases hms : sortPeers peers with
  | nil => exact absurd hms hne
  | cons best rest => simp [syncWithBestPeer, hms, List.headI]

/-- Witness for C6 at the concrete candidate list of the counterexample. -/
theorem syncWithBestPeer_single_attempt_witness :
    syncWithBestPeer [cand2, cand1] trySyncCex 3 =
      trySyncCex ((sortPeers [cand2, cand1]).headI.address)
        (if (sortPeers [cand2, cand1]).headI.chainLength > (3 : Int)
          then 3 else 0) :=
  syncWithBestPeer_single_attempt [cand2, cand1] trySyncCex 3 (by decide)

/-- C3: evaluation of `validateHandshakeResponse` at a failing input.  The
peer reports a chain of length 2 against a local length of 3 with an older
`lastUpdated`, yet validation returns `needsSync = true`: the source computes
`needsSync` as `(response.chainLength > metadata.length || true)`, which is
identically true, while the claimed longer-or-newer comparison sits in a
comment directly above that line. -/
theorem validateHandshakeResponse_needsSync_always_true :
    validateHandshakeResponse ctx0 st3 (some respShorter) =
      .valid true 2 (some 0) ∧
    respShorter.chainLength < (st3.chain.length : Int) := by
  decide

/-- C5: evaluation at the failing input.  A node holding a genesis and one
block answers a `fromIndex = 0` sync request with all blocks, the chain hash,
signature and total length — but with no genesis payload (`genesisBlock` is
absent from the response object in the source), so a zero-state node that
applies this response aborts the sync with its state untouched and can never
bootstrap. -/
theorem handleSyncRequest_omits_genesis :
    handleSyncRequest ctx0 st1 syncReq0 7 = .ok resp0 ∧
    resp0.blocks = st1.chain ∧
    resp0.totalLength = st1.chain.length ∧
    resp0.genesisBlock = none ∧
    applySyncData zeroCtx zeroSt resp0 16 2 = (false, zeroCtx, zeroSt) :=
  ⟨rfl, rfl, rfl, rfl, rfl⟩

/-- C1: rollback atomicity of `replaceChain`.  If the current state passes
`verifyChainIntegrity` and the candidate carries a chain signature that
verifies against the master public key but a block sequence (with its hash and
signature) that fails the chain-wide integrity check, then `replaceChain`
returns false and the resulting state is exactly the original one — block
sequence, chain hash and chain signature included — so integrity still
passes; the state is never left half-updated. -/
theorem replaceChain_rollback_atomic (ctx : NodeCtx) (st : ChainState)
    (nc : List Block) (nh ns : Option String) (g : Genesis)
    (hg : ctx.genesisBlock = some g)
    (hint : verifyChainIntegrity ctx st = true)
    (hauth : verifyChainAuthenticity nh ns g.masterPubKey = true)
    (hbad : verifyChainIntegrity ctx ⟨nc, nh, ns⟩ = false) :
    replaceChain ctx st nc nh ns = (false, st) ∧
      verifyChainIntegrity ctx st = true := by
  refine ⟨?_, hint⟩
  unfold replaceChain
  rw [hg]
  simp [hauth, hbad]

/-- Witness for C1: a fresh chain state, and a candidate `[bA, bBbad]` whose
top-level signature verifies but whose second block does not link to the
first. -/
theorem replaceChain_rollback_atomic_witness :
    replaceChain ctx0 st0 [bA, bBbad] (some ("h"))
        (some (signEd25519 ("h") ("m"))) = (false, st0) ∧
      verifyChainIntegrity ctx0 st0 = true :=
  replaceChain_rollback_atomic ctx0 st0 [bA, bBbad] (some ("h"))
    (some (signEd25519 ("h") ("m"))) g0 rfl (by decide) (by decide) (by decide)

/-- C8: on a `GOSSIP` message, `handleGossip` returns a `sync` action carrying
the address of the peer iff the chain length of the message is strictly greater than the
local chain length, or equal to it with a strictly newer `lastUpdated` (JS
comparison, null coercing to 0); in every other case it returns the
`Chain up to date` ignore action; in both cases the tracked peer-info of the sender
is updated with the message summary. -/
theorem handleGossip_sync_iff (st : ChainState)
    (peers : List (String × PeerInfo)) (message : GossipMsg)
    (peerAddress : String) (now : Int) (hty : message.type = "GOSSIP") :
    ((handleGossip st peers message peerAddress now).1 =
        .sync peerAddress message.chainLength message.lastUpdated ↔
      (message.chainLength > (st.chain.length : Int) ∨
        (message.chainLength = (st.chain.length : Int) ∧
          jsGtOpt message.lastUpdated (metadataLastUpdated st) = true))) ∧
    ((handleGossip st peers message peerAddress now).1 =
        .ignore ("Chain up to date") ↔
      ¬ (message.chainLength > (st.chain.length : Int) ∨
        (message.chainLength = (st.chain.length : Int) ∧
          jsGtOpt message.lastUpdated (metadataLastUpdated st) = true))) ∧
    (handleGossip st peers message peerAddress now).2 =
      mapSet peers peerAddress
        ⟨message.chainLength, message.chainHash, message.lastUpdated, now⟩ := by
  unfold handleGossip
  rw [if_neg (by simp [hty])]
  by_cases hcond : message.chainLength > (st.chain.length : Int) ∨
      (message.chainLength = (st.chain.length : Int) ∧
        jsGtOpt message.lastUpdated (metadataLastUpdated st) = true)
  · rw [if_pos hcond]
    simp [hcond]
  · rw [if_neg hcond]
    simp [hcond]

/-! Structural facts about concretely-built blocks and states.  These avoid
deep kernel evaluation of the symbolic hash strings: every equality below is
between definitionally equal terms. -/
theorem mkBlock_hash_ok (enc : List (String × EncEnvelope)) (md : BlockMeta)
    (prev : Option String) (priv : String) :
    verifyBlockHash (mkBlock enc md prev priv) = true := by
  unfold verifyBlockHash
  exact beq_iff_eq.mpr rfl

theorem mkBlock_sig_ok (enc : List (String × EncEnvelope)) (md : BlockMeta)
    (prev : Option String) (priv : String)
    (hpub : md.ownerPubKey = privToPub priv) :
    verifyBlockSignature (mkBlock enc md prev priv) = true := by
  have hguard : ¬ ((mkBlock enc md prev priv).signature = "" ∨
      (mkBlock enc md prev priv).metadata.ownerPubKey = "") := by
    rintro (h | h)
    · have h2 : ('Z' :: (fenc (blockDataString { mkBlock enc md prev priv with
          signature := "" }).data ++ fenc (privToPub priv).data)) =
          ([] : List Char) := congrArg String.data h
      exact absurd h2 (by simp)
    · have h2 := congrArg String.data h
      rw [show (mkBlock enc md prev priv).metadata.ownerPubKey = privToPub priv
        from hpub] at h2
      exact absurd h2 (by simp [privToPub])
  unfold verifyBlockSignature verifyEd25519
  rw [if_neg hguard]
  refine beq_iff_eq.mpr ?_
  rw [show (mkBlock enc md prev priv).metadata.ownerPubKey = privToPub priv
    from hpub]
  rfl

theorem verifyChainIntegrity_fresh (ctx : NodeCtx) (blocks : List Block)
    (g : Genesis) (hg : ctx.genesisBlock = some g)
    (hcb : checkBlocks none blocks = true)
    (hsig : ∀ kp, ctx.masterKeyPair = some kp →
      g.masterPubKey = privToPub kp.privateKey) :
    verifyChainIntegrity ctx (updateChainHash ctx ⟨blocks, none, none⟩) = true := by
  unfold verifyChainIntegrity updateChainHash calculateChainHash
  cases hmk : ctx.masterKeyPair with
  | none => simp [hg, hcb]
  | some kp =>
    have hpub := hsig kp hmk
    simp [hg, hcb, verifyChainAuthenticity, verifyEd25519, signEd25519, hpub]

/-- Witness for C8 on the empty local chain: a peer reporting length 1 yields
a sync action and the peer map is updated. -/
theorem handleGossip_sync_iff_witness :
    ((handleGossip st0 [] gmsg ("a") 9).1 =
        .sync ("a") gmsg.chainLength gmsg.lastUpdated ↔
      (gmsg.chainLength > (st0.chain.length : Int) ∨
        (gmsg.chainLength = (st0.chain.length : Int) ∧
          jsGtOpt gmsg.lastUpdated (metadataLastUpdated st0) = true))) ∧
    ((handleGossip st0 [] gmsg ("a") 9).1 =
        .ignore ("Chain up to date") ↔
      ¬ (gmsg.chainLength > (st0.chain.length : Int) ∨
        (gmsg.chainLength = (st0.chain.length : Int) ∧
          jsGtOpt gmsg.lastUpdated (metadataLastUpdated st0) = true))) ∧
    (handleGossip st0 [] gmsg ("a") 9).2 =
      mapSet [] ("a") ⟨gmsg.chainLength, gmsg.chainHash, gmsg.lastUpdated, 9⟩ :=
  handleGossip_sync_iff st0 [] gmsg ("a") 9 rfl

/-! Helper lemmas about the linkage invariant. -/
theorem linkOk_nil : linkOk [] := by
  intro i h
  simp at h

theorem linkOk_singleton (b : Block) : linkOk [b] := by
  intro i h
  simp at h

theorem headOk_nil : headOk [] := by
  intro b h
  simp at h

theorem linkOk_cons {a b : Block} {rest : List Block} :
    linkOk (a :: b :: rest) ↔ b.prevHash = some a.hash ∧ linkOk (b :: rest) := by
  constructor
  · intro h
    refine ⟨h 0 (by simp), ?_⟩
    intro i hi
    exact h (i + 1) (by simpa using Nat.succ_lt_succ hi)
  · rintro ⟨h1, h2⟩ i hi
    cases i with
    | zero => exact h1
    | succ j => exact h2 j (Nat.lt_of_succ_lt_succ hi)

theorem checkBlocks_linkOk : ∀ (prev : Option Block) (l : List Block),
    checkBlocks prev l = true → linkOk l := by
  intro prev l
  induction l generalizing prev with
  | nil => intro _; exact linkOk_nil
  | cons b rest ih =>
    intro h
    simp only [checkBlocks, Bool.and_eq_true] at h
    obtain ⟨⟨⟨-, -⟩, -⟩, hrest⟩ := h
    have hrestOk := ih (some b) hrest
    cases rest with
    | nil => exact linkOk_singleton b
    | cons c rest2 =>
      rw [linkOk_cons]
      refine ⟨?_, hrestOk⟩
      simp only [checkBlocks, Bool.and_eq_true] at hrest
      exact beq_iff_eq.mp hrest.1.2

theorem linkOk_append_singleton : ∀ (l : List Block) (b : Block), linkOk l →
    (∀ p, l.getLast? = some p → b.prevHash = some p.hash) → linkOk (l ++ [b]) := by
  intro l
  induction l with
  | nil =>
    intro b _ _
    simpa using linkOk_singleton b
  | cons a rest ih =>
    intro b hl hlast
    cases rest with
    | nil =>
      rw [show ([a] ++ [b]) = a :: b :: [] from rfl, linkOk_cons]
      exact ⟨hlast a (by simp), linkOk_singleton b⟩
    | cons c rest2 =>
      have hl2 := linkOk_cons.mp hl
      rw [show ((a :: c :: rest2) ++ [b]) = a :: ((c :: rest2) ++ [b]) from rfl]
      rw [show ((c :: rest2) ++ [b]) = c :: (rest2 ++ [b]) from rfl, linkOk_cons]
      refine ⟨hl2.1, ?_⟩
      rw [show (c :: (rest2 ++ [b])) = ((c :: rest2) ++ [b]) from rfl]
      refine ih b hl2.2 ?_
      intro p hp
      exact hlast p (by rw [List.getLast?_cons_cons]; exact hp)

/-- C2 (amended): `addBlock` preserves the full linkage invariant — if the
current chain satisfies it, any chain accepted by `addBlock` satisfies both
the pairwise `prevHash` linkage and the null head `prevHash`; a chain accepted
by `replaceChain` satisfies the pairwise linkage for every index `i > 0`, but
(unlike the original claim) the `prevHash` of its first block is not forced to be
null, because `verifyChainIntegrity` only checks linkage from the second block
on. -/
theorem chain_linkage_invariant (ctx : NodeCtx) (st : ChainState) (b : Block)
    (nc : List Block) (nh ns : Option String) :
    ((addBlock ctx st b).1 = true → headOk st.chain → linkOk st.chain →
      headOk (addBlock ctx st b).2.chain ∧ linkOk (addBlock ctx st b).2.chain) ∧
    ((replaceChain ctx st nc nh ns).1 = true →
      linkOk (replaceChain ctx st nc nh ns).2.chain) := by
  constructor
  · intro hadd hhead hlink
    unfold addBlock at hadd ⊢
    split at hadd
    · simp at hadd
    · rename_i h1
      rw [if_neg h1]
      split at hadd
      · simp at hadd
      · rename_i h2
        rw [if_neg h2]
        split at hadd
        · simp at hadd
        · rename_i h3
          rw [if_neg h3]
          cases hl : st.chain.getLast? with
          | some p =>
            simp only [hl] at hadd ⊢
            split at hadd
            · simp at hadd
            · rename_i h4
              have hprev : b.prevHash = some p.hash := not_not.mp h4
              rw [if_neg h4]
              constructor
              · intro x hx
                rcases hc : st.chain with _ | ⟨c, cs⟩
                · rw [hc] at hl
                  simp at hl
                · rw [show (updateChainHash ctx { st with
                      chain := st.chain ++ [b] }).chain = st.chain ++ [b]
                    from rfl, hc] at hx
                  simp only [List.cons_append, List.head?_cons,
                    Option.some.injEq] at hx
                  exact hx ▸ hhead c (by rw [hc]; rfl)
              · rw [show (updateChainHash ctx { st with
                    chain := st.chain ++ [b] }).chain = st.chain ++ [b]
                  from rfl]
                refine linkOk_append_singleton st.chain b hlink ?_
                intro p2 hp2
                rw [hl] at hp2
                obtain rfl : p = p2 := by injection hp2
                exact hprev
          | none =>
            simp only [hl] at hadd ⊢
            split at hadd
            · simp at hadd
            · rename_i h4
              have hprev : b.prevHash = none := not_not.mp h4
              have hnil : st.chain = [] := by
                cases hc : st.chain with
                | nil => rfl
                | cons c cs =>
                  rw [hc] at hl
                  simp [List.getLast?] at hl
              rw [if_neg h4]
              rw [show (updateChainHash ctx { st with
                  chain := st.chain ++ [b] }).chain = st.chain ++ [b] from rfl,
                hnil]
              constructor
              · intro x hx
                simp only [List.nil_append, List.head?_cons,
                  Option.some.injEq] at hx
                subst hx
                exact hprev
              · simpa using linkOk_singleton b
  · intro hrep
    unfold replaceChain at hrep ⊢
    cases hg : ctx.genesisBlock with
    | none =>
      rw [hg] at hrep
      simp at hrep
    | some g =>
      rw [hg] at hrep
      have hrep2 : (if ¬ verifyChainAuthenticity nh ns g.masterPubKey = true
          then (false, st)
          else if ¬ verifyChainIntegrity ctx ⟨nc, nh, ns⟩ = true
          then (false, st)
          else (true, (⟨nc, nh, ns⟩ : ChainState))).1 = true := hrep
      show linkOk ((if ¬ verifyChainAuthenticity nh ns g.masterPubKey = true
          then (false, st)
          else if ¬ verifyChainIntegrity ctx ⟨nc, nh, ns⟩ = true
          then (false, st)
          else (true, (⟨nc, nh, ns⟩ : ChainState))).2.chain)
      split at hrep2
      · simp at hrep2
      · rename_i h1
        rw [if_neg h1]
        split at hrep2
        · simp at hrep2
        · rename_i h2
          rw [if_neg h2]
          have hint : verifyChainIntegrity ctx ⟨nc, nh, ns⟩ = true :=
            not_not.mp h2
          unfold verifyChainIntegrity at hint
          simp only [Bool.and_eq_true] at hint
          exact checkBlocks_linkOk none nc hint.1.1

/-- The concrete evaluation shared by the C2 counterexample and witness:
`replaceChain` installs the candidate `[bFloat]`. -/
theorem replaceChain_bFloat_eq :
    replaceChain ctx0 st0 [bFloat] nh2 ns2 =
      (true, ⟨[bFloat], nh2, ns2⟩) := by
  have hcb : checkBlocks none [bFloat] = true := by
    have h1 := mkBlock_hash_ok [] md0 (some ("z")) ("o")
    have h2 := mkBlock_sig_ok [] md0 (some ("z")) ("o") rfl
    simp [checkBlocks, bFloat, h1, h2]
  have hauth : verifyChainAuthenticity nh2 ns2 g0.masterPubKey = true := by
    unfold verifyChainAuthenticity nh2 ns2 verifyEd25519 signEd25519
    exact beq_iff_eq.mpr rfl
  have hint : verifyChainIntegrity ctx0 ⟨[bFloat], nh2, ns2⟩ = true := by
    unfold verifyChainIntegrity
    rw [hcb]
    have hhash : (calculateChainHash ctx0 [bFloat] == nh2) = true :=
      beq_iff_eq.mpr rfl
    rw [hhash]
    simpa using hauth
  unfold replaceChain
  rw [show ctx0.genesisBlock = some g0 from rfl]
  show (if ¬ verifyChainAuthenticity nh2 ns2 g0.masterPubKey = true
      then (false, st0)
      else if ¬ verifyChainIntegrity ctx0 ⟨[bFloat], nh2, ns2⟩ = true
      then (false, st0)
      else (true, (⟨[bFloat], nh2, ns2⟩ : ChainState))) =
    (true, (⟨[bFloat], nh2, ns2⟩ : ChainState))
  rw [if_neg (not_not_intro hauth), if_neg (not_not_intro hint)]

/-- C2 counterexample: `replaceChain` accepts (returns `true` for) a
single-block candidate whose first block carries the non-null `prevHash`
string `z`, together with a matching chain hash and master signature — so the
claimed `chain[0].prevHash = null` invariant fails for `replaceChain`. -/
theorem replaceChain_accepts_nonnull_head :
    (replaceChain ctx0 st0 [bFloat] nh2 ns2).1 = true ∧
    (replaceChain ctx0 st0 [bFloat] nh2 ns2).2.chain.map (·.prevHash) =
      [some ("z")] := by
  rw [replaceChain_bFloat_eq]
  exact ⟨rfl, rfl⟩

/-- Witness for C2 at concrete inputs: an accepted `addBlock` append to the
fresh chain keeps both invariant parts, and the accepted `replaceChain`
candidate of the counterexample still satisfies the pairwise linkage part. -/
theorem chain_linkage_invariant_witness :
    (headOk (addBlock ctx0 st0 bA).2.chain ∧
      linkOk (addBlock ctx0 st0 bA).2.chain) ∧
    linkOk (replaceChain ctx0 st0 [bFloat] nh2 ns2).2.chain :=
  ⟨(chain_linkage_invariant ctx0 st0 bA [bFloat] nh2 ns2).1 (by decide)
      (by intro x hx; simp [st0, updateChainHash] at hx)
      (by intro i hi; simp [st0, updateChainHash] at hi),
    (chain_linkage_invariant ctx0 st0 bA [bFloat] nh2 ns2).2
      (by rw [replaceChain_bFloat_eq])⟩

/-! Helper lemmas for the relink cascade of `updateBlockInChain`. -/
theorem checkBlocks_append : ∀ (l1 l2 : List Block) (p : Option Block),
    checkBlocks p (l1 ++ l2) =
      (checkBlocks p l1 && checkBlocks (lastD p l1) l2) := by
  intro l1
  induction l1 with
  | nil =>
    intro l2 p
    simp [checkBlocks, lastD]
  | cons b rest ih =>
    intro l2 p
    have hlast : lastD p (b :: rest) = lastD (some b) rest := by
      unfold lastD
      cases rest with
      | nil => simp
      | cons c r2 =>
        rw [List.getLast?_cons_cons]
        cases h2 : (c :: r2).getLast? with
        | some x => rfl
        | none => simp at h2
    simp only [List.cons_append, checkBlocks, List.append_eq]
    rw [ih l2 (some b), hlast]
    simp [Bool.and_assoc]

theorem relink_map_signature : ∀ (prev : Block) (l : List Block),
    (relink prev l).map (·.signature) = l.map (·.signature) := by
  intro prev l
  induction l generalizing prev with
  | nil => rfl
  | cons b rest ih => simp [relink, relinkStep, ih]

theorem relink_verifyBlockHash : ∀ (prev : Block) (l : List Block),
    ∀ x ∈ relink prev l, verifyBlockHash x = true := by
  intro prev l
  induction l generalizing prev with
  | nil =>
    intro x hx
    simp [relink] at hx
  | cons b rest ih =>
    intro x hx
    simp only [relink, List.mem_cons] at hx
    rcases hx with hx | hx
    · subst hx
      unfold verifyBlockHash
      exact beq_iff_eq.mpr rfl
    · exact ih (relinkStep prev b) x hx

theorem relink_linkOk : ∀ (prev : Block) (l : List Block),
    linkOk (prev :: relink prev l) := by
  intro prev l
  induction l generalizing prev with
  | nil => exact linkOk_singleton prev
  | cons b rest ih =>
    show linkOk (prev :: relinkStep prev b :: relink (relinkStep prev b) rest)
    rw [linkOk_cons]
    exact ⟨rfl, ih (relinkStep prev b)⟩

theorem relink_sig_fail : ∀ (l : List Block) (oldPrev prev : Block),
    checkBlocks (some oldPrev) l = true → prev.hash ≠ oldPrev.hash →
    ∀ x ∈ relink prev l, verifyBlockSignature x = false := by
  intro l
  induction l with
  | nil =>
    intro _ _ _ _ x hx
    simp [relink] at hx
  | cons s rest ih =>
    intro oldPrev prev hchk hne x hx
    simp only [checkBlocks, Bool.and_eq_true] at hchk
    obtain ⟨⟨⟨hh, hs⟩, hl⟩, hrest⟩ := hchk
    have hlp : s.prevHash = some oldPrev.hash := beq_iff_eq.mp hl
    have hsh : calculateBlockHash s = s.hash := by
      simpa [verifyBlockHash] using hh
    simp only [relink, List.mem_cons] at hx
    rcases hx with hx | hx
    · subst hx
      unfold verifyBlockSignature at hs ⊢
      by_cases hguard : s.signature = "" ∨ s.metadata.ownerPubKey = ""
      · rw [if_pos hguard] at hs
        exact absurd hs (by simp)
      · rw [if_neg hguard] at hs
        rw [if_neg (show ¬ ((relinkStep prev s).signature = "" ∨
            (relinkStep prev s).metadata.ownerPubKey = "") from hguard)]
        have hsig : s.signature =
            mkSigStr (blockDataString s) s.metadata.ownerPubKey := by
          simpa [verifyEd25519] using hs
        refine Bool.not_eq_true _ |>.mp ?_
        intro htrue
        have h2 : (relinkStep prev s).signature =
            mkSigStr (blockDataString (relinkStep prev s))
              (relinkStep prev s).metadata.ownerPubKey := by
          simpa [verifyEd25519] using htrue
        have h3 : mkSigStr (blockDataString s) s.metadata.ownerPubKey =
            mkSigStr (blockDataString (relinkStep prev s))
              s.metadata.ownerPubKey := by
          rw [← hsig]
          exact h2
        have h4 := (mkSigStr_inj h3).1
        have h5 := blockDataString_prevHash_inj h4
        rw [hlp] at h5
        have h6 : some oldPrev.hash = some prev.hash := h5
        exact hne (Option.some.inj h6).symm
    · refine ih s (relinkStep prev s) hrest ?_ x hx
      intro he
      have h2 : calculateBlockHash (relinkStep prev s) = calculateBlockHash s := by
        rw [← hsh] at he
        exact he
      have h3 := calculateBlockHash_prevHash_inj h2
      rw [hlp] at h3
      have h4 : some prev.hash = some oldPrev.hash := h3
      exact hne (Option.some.inj h4)

/-- C9: frame effect of a successful `updateBlockInChain` on a non-last block
of a chain that passes `verifyChainIntegrity`, when the replacement block has
a different hash.  The update succeeds; every subsequent block keeps its
`signature` field while its `prevHash` is rewritten to the (relinked)
hash of the predecessor and its `hash` is recomputed; consequently every relinked
successor fails block-signature verification and `verifyChainIntegrity` is
false on the resulting chain. -/
theorem updateBlockInChain_cascade (ctx : NodeCtx) (st : ChainState)
    (pre suf : List Block) (b0 ub : Block)
    (hchain : st.chain = pre ++ b0 :: suf)
    (hfind : findIdxA (fun b => b.hash == b0.hash) st.chain = some pre.length)
    (hsuf : suf ≠ [])
    (hint : verifyChainIntegrity ctx st = true)
    (hvh : verifyBlockHash ub = true)
    (hvs : verifyBlockSignature ub = true)
    (hne : ub.hash ≠ b0.hash) :
    (updateBlockInChain ctx st b0.hash ub).1 = true ∧
    (updateBlockInChain ctx st b0.hash ub).2.chain =
      pre ++ ub :: relink ub suf ∧
    (relink ub suf).map (·.signature) = suf.map (·.signature) ∧
    linkOk (ub :: relink ub suf) ∧
    (∀ x ∈ relink ub suf, verifyBlockHash x = true) ∧
    (∀ x ∈ relink ub suf, verifyBlockSignature x = false) ∧
    verifyChainIntegrity ctx (updateBlockInChain ctx st b0.hash ub).2 = false := by
  have htake : st.chain.take pre.length = pre := by
    rw [hchain]
    exact List.take_left _ _
  have hdrop : st.chain.drop (pre.length + 1) = suf := by
    rw [hchain, show pre ++ b0 :: suf = (pre ++ [b0]) ++ suf by simp]
    rw [show pre.length + 1 = (pre ++ [b0]).length by simp]
    exact List.drop_left _ _
  have heval : updateBlockInChain ctx st b0.hash ub =
      (true, updateChainHash ctx { st with
        chain := pre ++ ub :: relink ub suf }) := by
    unfold updateBlockInChain
    rw [hfind]
    show (if ¬ verifyBlockHash ub = true then (false, st)
        else if ¬ verifyBlockSignature ub = true then (false, st)
        else (true, updateChainHash ctx { st with
          chain := st.chain.take pre.length ++
            ub :: relink ub (st.chain.drop (pre.length + 1)) })) = _
    rw [if_neg (not_not_intro hvh), if_neg (not_not_intro hvs), htake, hdrop]
  have hcb : checkBlocks none st.chain = true := by
    unfold verifyChainIntegrity at hint
    simp only [Bool.and_eq_true] at hint
    exact hint.1.1
  rw [hchain, checkBlocks_append] at hcb
  simp only [Bool.and_eq_true] at hcb
  obtain ⟨hcbPre, hcbSuf⟩ := hcb
  simp only [checkBlocks, Bool.and_eq_true] at hcbSuf
  obtain ⟨⟨⟨hh0, hs0⟩, hl0⟩, hsufChk⟩ := hcbSuf
  have hsigfail := relink_sig_fail suf b0 ub hsufChk hne
  refine ⟨by rw [heval], by rw [heval]; rfl, relink_map_signature ub suf,
    relink_linkOk ub suf, relink_verifyBlockHash ub suf, hsigfail, ?_⟩
  have hfalse : checkBlocks none (pre ++ ub :: relink ub suf) = false := by
    cases hsufc : suf with
    | nil => exact absurd hsufc hsuf
    | cons s1 suf2 =>
      have hmem : relinkStep ub s1 ∈ relink ub suf := by
        rw [hsufc]
        exact List.mem_cons_self _ _
      have hsig1 : verifyBlockSignature (relinkStep ub s1) = false :=
        hsigfail _ hmem
      rw [checkBlocks_append]
      have hmid : checkBlocks (lastD none pre)
          (ub :: relink ub (s1 :: suf2)) = false := by
        show checkBlocks (lastD none pre)
          (ub :: relinkStep ub s1 :: relink (relinkStep ub s1) suf2) = false
        simp only [checkBlocks]
        rw [hsig1]
        simp
      rw [hmid]
      simp
  rw [heval]
  unfold verifyChainIntegrity
  rw [show (updateChainHash ctx { st with
      chain := pre ++ ub :: relink ub suf }).chain =
    pre ++ ub :: relink ub suf from rfl]
  rw [hfalse]
  simp

/-- Witness for C9: the two-block chain `[bA, bB]` with `bA` replaced by the
valid but different-hash block `bU`. -/
theorem updateBlockInChain_cascade_witness :
    (updateBlockInChain ctxNG stAB bA.hash bU).1 = true ∧
    (updateBlockInChain ctxNG stAB bA.hash bU).2.chain =
      [] ++ bU :: relink bU [bB] ∧
    (relink bU [bB]).map (·.signature) = [bB].map (·.signature) ∧
    linkOk (bU :: relink bU [bB]) ∧
    (∀ x ∈ relink bU [bB], verifyBlockHash x = true) ∧
    (∀ x ∈ relink bU [bB], verifyBlockSignature x = false) ∧
    verifyChainIntegrity ctxNG (updateBlockInChain ctxNG stAB bA.hash bU).2 =
      false :=
  updateBlockInChain_cascade ctxNG stAB [] [bB] bA bU rfl
    (by simp [findIdxA, show stAB.chain = [bA, bB] from rfl])
    (by simp)
    (verifyChainIntegrity_fresh ctxNG [bA, bB] g0 rfl
      (by
        have h1 : verifyBlockHash bA = true := mkBlock_hash_ok [] md0 none ("o")
        have h2 : verifyBlockSignature bA = true :=
          mkBlock_sig_ok [] md0 none ("o") rfl
        have h3 : verifyBlockHash bB = true :=
          mkBlock_hash_ok [] md0 (some bA.hash) ("o")
        have h4 : verifyBlockSignature bB = true :=
          mkBlock_sig_ok [] md0 (some bA.hash) ("o") rfl
        have h5 : (bB.prevHash == some bA.hash) = true := beq_iff_eq.mpr rfl
        simp [checkBlocks, h1, h2, h3, h4, h5])
      (by intro kp h; simp [ctxNG] at h))
    (mkBlock_hash_ok [("n", ⟨"k", "a"⟩)] md0 none ("o"))
    (mkBlock_sig_ok [("n", ⟨"k", "a"⟩)] md0 none ("o") rfl)
    (by decide)

end Veritas
